import Mathlib

/-!
Verification of the symbol reference indexing and context-packing engine
of `code-rag-debugger` against its specification.

The Python sources are shallowly embedded:

* Python strings are `List Char` (so that all operations are executable and
  kernel-reducible); Python floats are `ℚ`.
* The transcendental primitives used by the ranking engine
  (`np.exp`, `np.log`, the square root inside `np.linalg.norm`) are abstracted
  into a `NumEnv` record of rational-valued functions; every theorem about the
  ranking engine quantifies over the environment.
* External collaborators (the Supabase store, the vector index, the
  tree-sitter extractors, the retrieval service, the filesystem) are modelled
  as explicit data (`Store`) and function records (`ExtEnv`), exactly at the
  call boundaries the source code uses.
* Python `try/except` blocks that swallow exceptions are modelled by the
  `Option`-typed results they actually produce; the one read path that
  re-raises (`build_reference_pack`) is modelled with `Except`.
-/

/-! ## Python string primitives (over `List Char`) -/

/-- Python `pat in s` substring test on strings, `s`/`pat` as char lists.
`[] in s` is `true`, matching Python. -/
def pyContains (s pat : List Char) : Bool :=
  match s with
  | [] => pat.isEmpty
  | _ :: rest => pat.isPrefixOf s || pyContains rest pat

/-- Python `s.lower()`. -/
def pyLower (s : List Char) : List Char := s.map Char.toLower

/-- Helper for `countWords`: `inWord` records whether the previous character
was a non-whitespace character. -/
def countWordsAux (inWord : Bool) : List Char → ℕ
  | [] => 0
  | c :: rest =>
    if c.isWhitespace then countWordsAux false rest
    else (if inWord then 0 else 1) + countWordsAux true rest

/-- Python `len(text.split())`: the number of maximal whitespace-free words.
This is the token estimator `_estimate_tokens` of `reference_service.py`
(1 token ≈ 1 word). -/
def countWords (s : List Char) : ℕ := countWordsAux false s

/-- Python `s.split(sep)` for a single-character separator
(used as `file_content.split('\n')`).  `"".split('\n') == [""]`. -/
def splitOnChar (sep : Char) : List Char → List (List Char)
  | [] => [[]]
  | c :: rest =>
    if c = sep then [] :: splitOnChar sep rest
    else
      match splitOnChar sep rest with
      | [] => [[c]]
      | l :: ls => (c :: l) :: ls

/-- Python `'\n'.join(lines)`. -/
def joinLines (ls : List (List Char)) : List Char := List.intercalate ['\n'] ls

/-- Stable insertion of `x` into a list already sorted by descending `key`:
`x` is placed before the first element whose key is ≤ its own, so that
elements with equal keys keep their original relative order. -/
def insertDesc {α : Type} (key : α → ℚ) (x : α) : List α → List α
  | [] => [x]
  | y :: ys => if key y ≤ key x then x :: y :: ys else y :: insertDesc key x ys

/-- Stable sort by descending `key`, the model of Python
`sorted(l, key=key, reverse=True)` / `l.sort(key=key, reverse=True)`. -/
def sortDesc {α : Type} (key : α → ℚ) : List α → List α
  | [] => []
  | x :: xs => insertDesc key x (sortDesc key xs)

/-! ## Ranking engine (`services/reference_ranking.py`) -/

/-- The transcendental primitives of `numpy` used by `ReferenceRanking`,
abstracted as rational-valued functions:
* `exp d` abstracts `np.exp(-0.1 * d)` for `d` days since modification;
* `log n` abstracts `np.log(1 + n)` for a usage count `n`;
* `sqrt q` abstracts the square root inside `np.linalg.norm`. -/
structure NumEnv where
  exp : ℤ → ℚ
  log : ℕ → ℚ
  sqrt : ℚ → ℚ

/-- A ranking candidate dict.  `none` fields model absent dict keys
(`'embedding' not in candidate`, `candidate.get(k, default)`);
`days_since_modified = none` also covers an unparsable timestamp, which the
source maps to the same neutral score. -/
structure RankCandidate where
  embedding : Option (List ℚ)
  call_distance : Option ℚ
  days_since_modified : Option ℤ
  usage_count : ℕ
  file_path : List Char

/-- `ReferenceRanking._semantic_similarity_score`: cosine similarity between
the error embedding and the candidate embedding; 0.5 when either is missing,
empty, or the dimensions mismatch; 0.0 when either norm is zero. -/
def semantic_similarity_score (env : NumEnv) (errEmb : Option (List ℚ))
    (c : RankCandidate) : ℚ :=
  match errEmb, c.embedding with
  | none, _ => 1/2
  | some _, none => 1/2
  | some e, some ce =>
    if e.isEmpty then 1/2
    else if ce.isEmpty || ce.length ≠ e.length then 1/2
    else
      let dot := (e.zip ce).foldl (fun acc p => acc + p.1 * p.2) 0
      let na := env.sqrt ((e.foldl (fun acc x => acc + x * x) 0))
      let nb := env.sqrt ((ce.foldl (fun acc x => acc + x * x) 0))
      if na = 0 ∨ nb = 0 then 0 else dot / (na * nb)

/-- `ReferenceRanking._proximity_score`: `1 / (1 + call_distance)`, with the
call distance defaulting to 2 when the key is absent. -/
def proximity_score (c : RankCandidate) : ℚ :=
  match c.call_distance with
  | none => 1 / (1 + 2)
  | some d => 1 / (1 + d)

/-- `ReferenceRanking._recency_score`: `np.exp(-0.1 * days)` via the abstract
environment; neutral 0.5 when the timestamp is missing or unparsable. -/
def recency_score (env : NumEnv) (c : RankCandidate) : ℚ :=
  match c.days_since_modified with
  | none => 1/2
  | some d => env.exp d

/-- `ReferenceRanking._usage_score`: `np.log(1 + usage_count) / 10.0` via the
abstract environment. -/
def usage_score (env : NumEnv) (c : RankCandidate) : ℚ :=
  env.log c.usage_count / 10

/-- The test-indicator check of `ReferenceRanking._test_boost_score`:
`any(ind in file_path.lower() for ind in ['test', 'spec', 'testing'])`. -/
def is_test_path (p : List Char) : Bool :=
  ["test".toList, "spec".toList, "testing".toList].any
    (fun ind => pyContains (pyLower p) ind)

/-- `ReferenceRanking._test_boost_score`: 1.2 for test-indicator paths,
1.0 otherwise.  Note that in the source this value is one of the five
*factors* of the weighted sum, not a multiplier on the sum. -/
def test_boost_score (c : RankCandidate) : ℚ :=
  if is_test_path c.file_path then 12/10 else 1

/-- The five factor names keyed by the weight dict of `ReferenceRanking`. -/
inductive RankFactor where
  | semantic_similarity
  | proximity
  | recency
  | usage
  | test_boost
deriving DecidableEq, Repr

/-- The `scores` dict built at the start of
`ReferenceRanking._calculate_score`. -/
def factor_score (env : NumEnv) (errEmb : Option (List ℚ))
    (c : RankCandidate) : RankFactor → ℚ
  | .semantic_similarity => semantic_similarity_score env errEmb c
  | .proximity => proximity_score c
  | .recency => recency_score env c
  | .usage => usage_score env c
  | .test_boost => test_boost_score c

/-- `ReferenceRanking.default_weights` (insertion order of the dict). -/
def default_weights : List (RankFactor × ℚ) :=
  [(.semantic_similarity, 6/10), (.proximity, 2/10), (.recency, 1/10),
   (.usage, 8/100), (.test_boost, 2/100)]

/-- `ReferenceRanking._calculate_score`: the plain weighted sum
`total_score += scores[factor] * weight` over the entries of the weight
dict, modelled as an association list. -/
def calculate_score (env : NumEnv) (errEmb : Option (List ℚ))
    (weights : List (RankFactor × ℚ)) (c : RankCandidate) : ℚ :=
  weights.foldl (fun acc fw => acc + factor_score env errEmb c fw.1 * fw.2) 0

/-- `ReferenceRanking.rank_references`: annotate every candidate with its
composite score and sort by score descending (stable).  The weight dict is
`params or self.default_weights`, i.e. the defaults are used exactly when
`params` is `None` or empty. -/
def rank_references (env : NumEnv) (errEmb : Option (List ℚ))
    (params : List (RankFactor × ℚ)) (cands : List RankCandidate) :
    List (RankCandidate × ℚ) :=
  if cands.isEmpty then []
  else
    let weights := if params.isEmpty then default_weights else params
    sortDesc Prod.snd (cands.map (fun c => (c, calculate_score env errEmb weights c)))

/-- The composite score as §4.5 of the spec words it (for claim C1 only;
translated from the spec, not from the source):
`composite = (Σ weight_i · factor_i) × test_multiplier` over the four
non-test factors, with the multiplicative test boost. -/
def spec_composite (env : NumEnv) (errEmb : Option (List ℚ))
    (wSem wProx wRec wUsage : ℚ) (c : RankCandidate) : ℚ :=
  (wSem * semantic_similarity_score env errEmb c
    + wProx * proximity_score c
    + wRec * recency_score env c
    + wUsage * usage_score env c)
  * (if is_test_path c.file_path then 12/10 else 1)

/-- A concrete numeric environment for counterexamples.  Its only exercised
value is `log 0 = 0`, which agrees with the real `np.log(1 + 0) = 0.0`. -/
def numEnv0 : NumEnv := { exp := fun _ => 0, log := fun _ => 0, sqrt := fun _ => 0 }

/-- A candidate dict holding only a file path inside a test directory:
`{'file_path': "tests/foo.py"}`, as produced by a genuine run with no
embedding, call distance, timestamp, or usage count. -/
def testCand : RankCandidate :=
  { embedding := none, call_distance := none, days_since_modified := none,
    usage_count := 0, file_path := "tests/foo.py".toList }

/-! ## Data model rows and the external store (`models/crud.py`) -/

/-- A persisted `Symbol` row (the fields the embedded operations read). -/
structure SymbolRow where
  id : ℕ
  project_id : ℕ
  file_path : List Char
  symbol_name : List Char
  start_line : ℕ
  end_line : ℕ
deriving DecidableEq, Repr

/-- A persisted `Reference` row. -/
structure RefRow where
  from_symbol_id : ℕ
  to_symbol_id : ℕ
  reference_type : List Char
  file_path : List Char
  line : ℕ
deriving DecidableEq, Repr

/-- The relational store behind `models/crud.py` (Supabase is external; rows
are kept in table order, matching `result.data`).  `next_id` is the id the
next inserted row receives. -/
structure Store where
  projects : List (ℕ × List Char)
  symbols : List SymbolRow
  references : List RefRow
  next_id : ℕ
deriving DecidableEq, Repr

/-- `crud.symbol.get(id)`: `select * where id = …`, first row or `None`. -/
def symbol_get (st : Store) (i : ℕ) : Option SymbolRow :=
  (st.symbols.filter (fun r => r.id == i)).head?

/-- `crud.project.get(id)`, reduced to the project's name. -/
def project_get (st : Store) (i : ℕ) : Option (List Char) :=
  ((st.projects.filter (fun p => p.1 == i)).head?).map Prod.snd

/-- `crud.reference.get_by_symbol(symbol_id)`:
`select * where from_symbol_id = …`. -/
def reference_get_by_symbol (st : Store) (i : ℕ) : List RefRow :=
  st.references.filter (fun r => r.from_symbol_id == i)

/-- `crud.symbol.get_by_unique(project_id, file_path, symbol_name,
start_line)`: first row matching all four key columns, or `None`. -/
def get_by_unique (st : Store) (p : ℕ) (f nm : List Char) (sl : ℕ) :
    Option SymbolRow :=
  (st.symbols.filter (fun r =>
    r.project_id == p && r.file_path == f && r.symbol_name == nm
      && r.start_line == sl)).head?

/-- `crud.symbol.get_by_file_and_line(project_id, file_path, start_line,
end_line)`: rows of the file filtered by line columns.  Python's
`if end_line:` makes both `None` and `0` select the equality branch. -/
def get_by_file_and_line (st : Store) (p : ℕ) (f : List Char)
    (startL : ℕ) (endL : Option ℕ) : List SymbolRow :=
  let base := st.symbols.filter (fun r => r.project_id == p && r.file_path == f)
  match endL with
  | some e =>
    if e ≠ 0 then
      base.filter (fun r => startL ≤ r.start_line && r.end_line ≤ e)
    else base.filter (fun r => r.start_line == startL)
  | none => base.filter (fun r => r.start_line == startL)

/-! ## Reference graph traversal
(`ReferenceService.get_symbol_references`) -/

/-- One entry of the list built by the nested `traverse` closure:
`{'reference': ref, 'depth': depth, 'symbol': crud.symbol.get(to_id)}`. -/
structure RefEntry where
  ref : RefRow
  depth : ℕ
  symbol : Option SymbolRow
deriving DecidableEq, Repr

/-- The mutable state of the `traverse` closure: the accumulated `references`
list and the `visited` id set (a list suffices for membership tests). -/
structure TravState where
  refs : List RefEntry
  visited : List ℕ
deriving DecidableEq, Repr

/-- The `for ref in direct_refs` loop body of `traverse`: append an entry for
each direct reference and recurse (via `recurse`, the traversal at the next
depth) only while `depth < max_depth`. -/
def traverse_refs (recurse : ℕ → ℕ → TravState → TravState) (maxDepth : ℕ)
    (st : Store) (rs : List RefRow) (depth : ℕ) (s : TravState) : TravState :=
  match rs with
  | [] => s
  | r :: rest =>
    let s1 : TravState :=
      { s with refs := s.refs ++ [⟨r, depth, symbol_get st r.to_symbol_id⟩] }
    let s2 := if depth < maxDepth then recurse r.to_symbol_id (depth + 1) s1 else s1
    traverse_refs recurse maxDepth st rest depth s2

/-- The recursive `traverse(current_symbol_id, depth)` closure of
`get_symbol_references`.  `fuel` only bounds the recursion for Lean's sake:
the source guard `depth > max_depth` already keeps every call at
`depth ≤ max_depth`, so starting with `fuel = max_depth + 1` the `0` branch
is never reached. -/
def traverse_symbol (st : Store) (maxDepth maxRefs : ℕ) :
    ℕ → ℕ → ℕ → TravState → TravState
  | 0, _, _, s => s
  | fuel + 1, cur, depth, s =>
    if maxDepth < depth ∨ maxRefs ≤ s.refs.length then s
    else if cur ∈ s.visited then s
    else
      traverse_refs (traverse_symbol st maxDepth maxRefs fuel) maxDepth st
        (reference_get_by_symbol st cur) depth
        { s with visited := cur :: s.visited }

/-- `ReferenceService.get_symbol_references(symbol_id, max_depth,
max_references)`: `[]` when the anchor symbol is absent, otherwise the
entries accumulated by `traverse(symbol_id, 0)`. -/
def get_symbol_references (st : Store) (symbol_id maxDepth maxRefs : ℕ) :
    List RefEntry :=
  match symbol_get st symbol_id with
  | none => []
  | some _ =>
    (traverse_symbol st maxDepth maxRefs (maxDepth + 1) symbol_id 0 ⟨[], []⟩).refs

/-! ## External collaborators of the query path -/

/-- One hit returned by `embedding_service.query_collection`:
`result['metadata'].get('symbol_id')` and `result['distance']`. -/
structure QueryHit where
  symbol_id : Option ℕ
  distance : ℚ

/-- A draft symbol dict produced by the tree-sitter extractors of
`utils/ast_parsers.py`.  Drafts carry no database `id`. -/
structure Draft where
  symbol_name : List Char
  symbol_type : List Char
  start_line : ℕ
  end_line : ℕ
  code_snippet : List Char
  file_path : List Char
  language : List Char
deriving DecidableEq, Repr

/-- One hit returned by `retrieval_service.retrieve_similar_errors`. -/
structure ErrorHit where
  hash : Option (List Char)
  content : List Char
  similarity : ℚ

/-- The external collaborators consumed by the query path and the indexing
pipeline, at exactly the boundaries the source calls them:
* `files` — the filesystem: full path ↦ content (`_read_file_content`);
* `query_results` — the vector index: namespace, query text, `top_k`;
* `parsers_loaded` — the tree-sitter grammars present in `self.parsers`;
* `extract_python` / `extract_javascript` — `_extract_python_symbols` /
  `_extract_javascript_symbols` on a parse tree of the given content (a parse
  failure is absorbed as an empty draft list, as in `_parse_symbols`);
* `similar_errors` — the retrieval service: project, query, `n_results`. -/
structure ExtEnv where
  files : List (List Char × List Char)
  query_results : List Char → List Char → ℕ → List QueryHit
  parsers_loaded : List (List Char)
  extract_python : List Char → List Draft
  extract_javascript : List Char → List Draft
  similar_errors : ℕ → List Char → ℕ → List ErrorHit

/-- `ReferenceService._get_repo_path`: `./repositories/{project.name}`, or
`None` when the project row is absent. -/
def repo_path (st : Store) (p : ℕ) : Option (List Char) :=
  (project_get st p).map (fun nm => "./repositories/".toList ++ nm)

/-- `ReferenceService._read_file_content`: read `{repo_path}/{file_path}`,
`None` on failure. -/
def read_file (env : ExtEnv) (repo fp : List Char) : Option (List Char) :=
  ((env.files.filter (fun e => e.1 == repo ++ "/".toList ++ fp)).head?).map
    Prod.snd

/-- `ASTParser._parse_symbols(language, file_content, file_path)`: empty when
the grammar is not loaded; otherwise the language-dispatched extraction
(the Java/C++/Go/Rust extractors are `return []` placeholders in the
source), with `file_path` and `language` stamped onto every draft. -/
def ast_parse_symbols (env : ExtEnv) (language content path : List Char) :
    List Draft :=
  if language ∉ env.parsers_loaded then []
  else
    let drafts :=
      if language == "python".toList then env.extract_python content
      else if language == "javascript".toList
          || language == "typescript".toList then
        env.extract_javascript content
      else []
    drafts.map (fun d => { d with file_path := path, language := language })

/-- `ReferenceService._detect_language`: map
`'.' + file_path.split('.')[-1].lower()` through the extension table,
defaulting to `"unknown"`. -/
def detect_language_service (fp : List Char) : List Char :=
  let ext := '.' :: pyLower ((splitOnChar '.' fp).getLastD [])
  let table : List (List Char × List Char) :=
    [(".py".toList, "python".toList),
     (".js".toList, "javascript".toList), (".jsx".toList, "javascript".toList),
     (".ts".toList, "typescript".toList), (".tsx".toList, "typescript".toList),
     (".java".toList, "java".toList),
     (".cpp".toList, "cpp".toList), (".cc".toList, "cpp".toList),
     (".cxx".toList, "cpp".toList), (".h".toList, "cpp".toList),
     (".hpp".toList, "cpp".toList),
     (".go".toList, "go".toList),
     (".rs".toList, "rust".toList)]
  match (table.filter (fun e => e.1 == ext)).head? with
  | some e => e.2
  | none => "unknown".toList

/-- `ReferenceService._parse_symbols`: dispatch on the detected language to
the per-language `ast_parser.parse_*_symbols` entry points (TypeScript files
are sent to the JavaScript grammar, as in the source); any other language
yields `[]`. -/
def service_parse_symbols (env : ExtEnv) (language content path : List Char) :
    List Draft :=
  if language == "python".toList then
    ast_parse_symbols env "python".toList content path
  else if language == "javascript".toList || language == "typescript".toList then
    ast_parse_symbols env "javascript".toList content path
  else if language == "java".toList then
    ast_parse_symbols env "java".toList content path
  else if language == "cpp".toList then
    ast_parse_symbols env "cpp".toList content path
  else if language == "go".toList then
    ast_parse_symbols env "go".toList content path
  else if language == "rust".toList then
    ast_parse_symbols env "rust".toList content path
  else []

/-! ## Symbol resolver (`ReferenceService`) -/

/-- One element of the list returned by `semantic_find_symbols`:
`{'symbol': row, 'similarity': 1 - distance}` (the metadata entry of the
dict is not read by any embedded caller). -/
structure SemHit where
  symbol : SymbolRow
  similarity : ℚ
deriving DecidableEq

/-- `ReferenceService.semantic_find_symbols(project_id, query_snippet,
file_path, top_k)`: query the vector index in the project namespace, map
each hit with a `symbol_id` back to its stored symbol row, drop hits whose
symbol is missing, optionally filter by file, and return the hits sorted by
descending similarity, truncated to `top_k`. -/
def semantic_find_symbols (st : Store) (env : ExtEnv) (p : ℕ)
    (query : List Char) (fileFilter : Option (List Char)) (topK : ℕ) :
    List SemHit :=
  let ns := "project_".toList ++ (Nat.toDigits 10 p) ++ "_symbols".toList
  let results := env.query_results ns query topK
  let hits := results.filterMap (fun r =>
    match r.symbol_id with
    | none => none
    | some sid =>
      match symbol_get st sid with
      | some srow => some (⟨srow, 1 - r.distance⟩ : SemHit)
      | none => none)
  let hits :=
    match fileFilter with
    | some f => hits.filter (fun h => h.symbol.file_path == f)
    | none => hits
  (sortDesc (fun h => h.similarity) hits).take topK

/-- The value returned by `find_enclosing_symbol`: either a persisted symbol
row (the database branch — it carries an `id` key), a freshly parsed draft
(the AST branch — it carries **no** `id` key), or a semantic-search hit dict
(the snippet branch — it carries no `id` key either). -/
inductive Enclosing where
  | row (r : SymbolRow)
  | draft (d : Draft)
  | semhit (h : SemHit)
deriving DecidableEq

/-- `ASTParser.find_enclosing_symbol_by_line(symbols, line)`: the first draft
whose `[start_line, end_line]` span contains the line. -/
def find_enclosing_by_line (drafts : List Draft) (line : ℕ) : Option Draft :=
  drafts.find? (fun d => decide (d.start_line ≤ line) && decide (line ≤ d.end_line))

/-- `ReferenceService.find_enclosing_symbol(project_id, file_path,
start_line, end_line, snippet_text)`.  With a start line: the stored-symbol
lookup first, then a fresh parse of the live file; with only a snippet: the
top semantic hit (`[0]` on an empty result raises `IndexError`, which the
enclosing `except` turns into `None`).  Every failure path returns `None`. -/
def find_enclosing_symbol (st : Store) (env : ExtEnv) (p : ℕ) (f : List Char)
    (startL endL : Option ℕ) (snippet : Option (List Char)) :
    Option Enclosing :=
  match startL with
  | some sl =>
    match get_by_file_and_line st p f sl endL with
    | r :: _ => some (.row r)
    | [] =>
      match repo_path st p with
      | none => none
      | some rp =>
        match read_file env rp f with
        | none => none
        | some content =>
          if content = [] then none
          else
            let lang := detect_language_service f
            let drafts := service_parse_symbols env lang content f
            (find_enclosing_by_line drafts sl).map .draft
  | none =>
    match repo_path st p with
    | none => none
    | some rp =>
      match read_file env rp f with
      | none => none
      | some content =>
        if content = [] then none
        else
          match snippet with
          | some sn =>
            match semantic_find_symbols st env p sn (some f) 1 with
            | h :: _ => some (.semhit h)
            | [] => none
          | none => none

/-- `ReferenceService.resolve_snippet_to_symbol(project_id, file_path,
snippet_text, line_range)`: line-based resolution first; its result is read
as `symbol['id']`, so a draft or semantic-dict result (which has no `'id'`
key) raises `KeyError`, which the enclosing `except` turns into `None`
— without consulting the fallback.  The semantic top-1 fallback runs only
when line-based resolution returned nothing (or no line range was given). -/
def resolve_snippet_to_symbol (st : Store) (env : ExtEnv) (p : ℕ)
    (f snippet : List Char) (lineRange : Option (ℕ × ℕ)) : Option ℕ :=
  let fallback :=
    match semantic_find_symbols st env p snippet (some f) 1 with
    | h :: _ => some h.symbol.id
    | [] => none
  match lineRange with
  | some (sl, el) =>
    match find_enclosing_symbol st env p f (some sl) (some el) none with
    | some (.row r) => some r.id
    | some (.draft _) => none
    | some (.semhit _) => none
    | none => fallback
  | none => fallback

/-! ## Reference pack builder (`ReferenceService.build_reference_pack`) -/

/-- The definition dict of `_get_symbol_definition`
(only the fields read downstream). -/
structure DefObj where
  content : List Char
  token_count : ℕ
deriving DecidableEq, Repr

/-- `ReferenceService._get_symbol_definition`: re-read the live file and
slice `lines[start_line-1 : end_line]`; any falsy input (missing project or
file, empty content, zero line numbers) degrades to an empty definition. -/
def get_symbol_definition (st : Store) (env : ExtEnv) (sym : SymbolRow) :
    DefObj :=
  let contentOpt :=
    match repo_path st sym.project_id with
    | none => none
    | some rp => read_file env rp sym.file_path
  match contentOpt with
  | none => ⟨[], 0⟩
  | some content =>
    if content ≠ [] ∧ sym.start_line ≠ 0 ∧ sym.end_line ≠ 0 then
      let lines : List (List Char) := splitOnChar '\n' content
      let defn := joinLines ((lines.drop (sym.start_line - 1)).take
        (sym.end_line - (sym.start_line - 1)))
      ⟨defn, countWords defn⟩
    else ⟨[], 0⟩

/-- `ReferenceService._get_reference_content` given the (non-`None`) symbol
row of the entry: read the referenced file and return the ±5-line context
window `lines[max(0, line-5) : min(len(lines), line+5)]`; an unreadable file
yields the empty string. -/
def get_reference_content (st : Store) (env : ExtEnv) (srow : SymbolRow)
    (ref : RefRow) : List Char :=
  let contentOpt :=
    match repo_path st srow.project_id with
    | none => none
    | some rp => read_file env rp ref.file_path
  match contentOpt with
  | none => []
  | some content =>
    let lines : List (List Char) := splitOnChar '\n' content
    let lo := ref.line - 5
    let hi := min lines.length (ref.line + 5)
    joinLines ((lines.drop lo).take (hi - lo))

/-- One selected reference snippet of `_rank_and_select_snippets`. -/
structure SelectedRef where
  content : List Char
  reference_type : List Char
  token_count : ℕ
deriving DecidableEq, Repr

/-- The accumulating `selected` dict of `_rank_and_select_snippets`
(the caller/callee/import/test/historical buckets are never filled by the
source, so only the reference list and the running total are modelled). -/
structure SelState where
  refs : List SelectedRef
  total : ℕ
deriving DecidableEq, Repr

/-- The greedy `for ref in references` loop of `_rank_and_select_snippets`:
a candidate is admitted only while the running token total stays within the
budget; an overflowing candidate is skipped and the scan continues.  Reading
`reference['symbol']['project_id']` on an entry whose symbol is `None`
raises a `TypeError`, which propagates (modelled as `Except.error`). -/
def select_refs (st : Store) (env : ExtEnv) (budget : ℕ) :
    List RefEntry → SelState → Except (List Char) SelState
  | [], s => .ok s
  | e :: rest, s =>
    match e.symbol with
    | none => .error "TypeError".toList
    | some srow =>
      let content := get_reference_content st env srow e.ref
      let tc := countWords content
      let s1 :=
        if s.total + tc ≤ budget then
          ({ refs := s.refs ++ [⟨content, e.ref.reference_type, tc⟩],
             total := s.total + tc } : SelState)
        else s
      select_refs st env budget rest s1

/-- `ReferenceService._rank_and_select_snippets`: the definition is included
first and unconditionally (its tokens initialise the running total, even
above the budget); then the reference entries are scanned greedily in
traversal order.  `ranking_params` is accepted but unused by the source. -/
def rank_and_select_snippets (st : Store) (env : ExtEnv) (definition : DefObj)
    (references : List RefEntry) (tokenBudget : ℕ) :
    Except (List Char) SelState :=
  select_refs st env tokenBudget references ⟨[], definition.token_count⟩

/-- The `ReferencePack` fields populated by the source (`callers`, `callees`,
`imports`, `tests` are always empty and `historical_fixes` is always the
empty selection bucket). -/
structure ReferencePack where
  symbol : SymbolRow
  definition : DefObj
  references : List SelectedRef
  historical_fixes : List SelectedRef
  token_count : ℕ
deriving DecidableEq, Repr

/-- `ReferenceService._get_historical_fixes`: retrieval-service hits for
`"fix {symbol_name} error bug"` (they never reach the selection, which
leaves its `historical_fixes` bucket empty). -/
def get_historical_fixes (env : ExtEnv) (p : ℕ) (symbolName : List Char) :
    List ErrorHit :=
  env.similar_errors p ("fix ".toList ++ symbolName ++ " error bug".toList) 5

/-- `ReferenceService.build_reference_pack(symbol_id, token_budget,
ranking_params)`: resolves the anchor symbol — raising `ValueError` when it
is absent, which the `except` logs and **re-raises** — then gathers the
definition, a depth-2 reference neighbourhood (`max_references` keeps its
default 50) and the historical fixes, and runs the greedy selection.
`ranking_params` is passed through but unused. -/
def build_reference_pack (st : Store) (env : ExtEnv) (symbolId tokenBudget : ℕ)
    (rankingParams : Option (List (RankFactor × ℚ))) :
    Except (List Char) ReferencePack :=
  match symbol_get st symbolId with
  | none => .error ("Symbol ".toList ++ Nat.toDigits 10 symbolId
      ++ " not found".toList)
  | some sym =>
    let definition := get_symbol_definition st env sym
    let references := get_symbol_references st symbolId 2 50
    let _fixes := get_historical_fixes env sym.project_id sym.symbol_name
    let _params := rankingParams
    match rank_and_select_snippets st env definition references tokenBudget with
    | .error e => .error e
    | .ok sel =>
      .ok { symbol := sym, definition := definition, references := sel.refs,
            historical_fixes := [], token_count := sel.total }

/-! ## Indexing pipeline (`workers/reference_indexer.py`) -/

/-- The non-`id` columns written by `_upsert_symbol` (the payload columns
not used by any embedded operation are elided). -/
structure SymbolData where
  project_id : ℕ
  file_path : List Char
  symbol_name : List Char
  start_line : ℕ
  end_line : ℕ
deriving DecidableEq, Repr

/-- The row a `SymbolData` payload produces under a given id. -/
def applyData (i : ℕ) (d : SymbolData) : SymbolRow :=
  ⟨i, d.project_id, d.file_path, d.symbol_name, d.start_line, d.end_line⟩

/-- `crud.symbol.update(id, data)`: `update … where id = …`; returns the
first updated row, or `None` when no row has the id. -/
def symbol_update (st : Store) (i : ℕ) (d : SymbolData) :
    Store × Option SymbolRow :=
  let updated := st.symbols.map (fun r => if r.id == i then applyData i d else r)
  (⟨st.projects, updated, st.references, st.next_id⟩,
   (updated.filter (fun r => r.id == i)).head?)

/-- `crud.symbol.create(data)`: insert a fresh row (Supabase assigns the next
id) and return it. -/
def symbol_create (st : Store) (d : SymbolData) : Store × SymbolRow :=
  let row := applyData st.next_id d
  (⟨st.projects, st.symbols ++ [row], st.references, st.next_id + 1⟩, row)

/-- `ReferenceIndexer._upsert_symbol`: look up the uniqueness key
`(project_id, file_path, symbol_name, start_line)`; update the existing row
in place (its id is kept: `symbol_data['id'] = existing['id']`) when a match
exists, insert a fresh row otherwise.  Returns the new store and the id the
source returns. -/
def upsert_symbol (st : Store) (d : SymbolData) : Store × Option ℕ :=
  match get_by_unique st d.project_id d.file_path d.symbol_name d.start_line with
  | some existing =>
    ((symbol_update st existing.id d).1,
     ((symbol_update st existing.id d).2).map (fun r => r.id))
  | none =>
    ((symbol_create st d).1, some (symbol_create st d).2.id)

/-- The status column of an `IndexingJob` row. -/
inductive JobStatus where
  | pending
  | processing
  | completed
  | failed
deriving DecidableEq, Repr

/-- The batch loop of `index_project_symbols`, abstracted to the inputs that
steer the job-level control flow: `fault = some i` means processing batch
`i` raises a job-level exception.  Each non-faulting batch ends with an
`_update_indexing_job(…, status='processing')` progress write; a fault jumps
to the `except` block, which writes `failed` and re-raises; loop completion
writes `completed`. -/
def run_batches (fault : Option ℕ) (idx : ℕ) : ℕ → List JobStatus
  | 0 => [JobStatus.completed]
  | rem + 1 =>
    if fault == some idx then [JobStatus.failed]
    else JobStatus.processing :: run_batches fault (idx + 1) rem

/-- The sequence of status values the `IndexingJob` row takes over one run of
`ReferenceIndexer.index_project_symbols`: the job is **created** with status
`processing` (`self._create_indexing_job(project_id, "processing")`), a
missing project raises before the loop (`failed`), and otherwise the batch
loop runs to `completed` or to the first job-level fault (`failed`). -/
def index_job_status_trace (projectExists : Bool) (numBatches : ℕ)
    (fault : Option ℕ) : List JobStatus :=
  JobStatus.processing ::
    (if projectExists then run_batches fault 0 numBatches
     else [JobStatus.failed])

/-- `ReferenceIndexer._detect_language`: `Path(file_path).suffix.lower()`
through the extension table, defaulting to `"unknown"`.  `Path(..).suffix`
is modelled for ordinary file names as the last `'.'`-separated piece of the
final path component (empty when the name has no dot). -/
def detect_language_indexer (fp : List Char) : List Char :=
  let base := (splitOnChar '/' fp).getLastD []
  let suffix :=
    match splitOnChar '.' base with
    | [] => []
    | [_] => []
    | ps => '.' :: ps.getLastD []
  let ext := pyLower suffix
  let table : List (List Char × List Char) :=
    [(".py".toList, "python".toList),
     (".js".toList, "javascript".toList), (".jsx".toList, "javascript".toList),
     (".ts".toList, "typescript".toList), (".tsx".toList, "typescript".toList),
     (".java".toList, "java".toList),
     (".cpp".toList, "cpp".toList), (".cc".toList, "cpp".toList),
     (".cxx".toList, "cpp".toList), (".h".toList, "cpp".toList),
     (".hpp".toList, "cpp".toList),
     (".go".toList, "go".toList),
     (".rs".toList, "rust".toList)]
  match (table.filter (fun e => e.1 == ext)).head? with
  | some e => e.2
  | none => "unknown".toList

/-- The symbol-extraction step of `ReferenceIndexer._process_single_file`:
detect the language, return no symbols for an unrecognised extension, and
otherwise call `ast_parser.parse_python_symbols(content, file_path)` — the
**Python** entry point, `_parse_symbols('python', …)` — regardless of the
detected language. -/
def indexer_extract_symbols (env : ExtEnv) (filePath content : List Char) :
    List Draft :=
  let language := detect_language_indexer filePath
  if language == "unknown".toList then []
  else ast_parse_symbols env "python".toList content filePath

/-! ## Concrete fixtures for counterexamples and witnesses -/

/-- A store with one symbol that has two outgoing references. -/
def storeTwoRefs : Store :=
  { projects := [(1, "proj".toList)],
    symbols := [⟨1, 1, "a.py".toList, "f".toList, 1, 2⟩,
                ⟨2, 1, "a.py".toList, "g".toList, 4, 5⟩,
                ⟨3, 1, "a.py".toList, "h".toList, 7, 8⟩],
    references := [⟨1, 2, "usage".toList, "a.py".toList, 2⟩,
                   ⟨1, 3, "usage".toList, "a.py".toList, 2⟩],
    next_id := 4 }

/-- The empty store. -/
def emptyStore : Store :=
  { projects := [], symbols := [], references := [], next_id := 1 }

/-- An external environment returning nothing anywhere. -/
def emptyEnv : ExtEnv :=
  { files := [], query_results := fun _ _ _ => [],
    parsers_loaded := [], extract_python := fun _ => [],
    extract_javascript := fun _ => [], similar_errors := fun _ _ _ => [] }

/-- A candidate differing from `testCand` only in its usage count. -/
def usageCand : RankCandidate :=
  { embedding := none, call_distance := none, days_since_modified := none,
    usage_count := 7, file_path := "tests/foo.py".toList }

/-- A store whose one symbol carries a single self-reference (the shape the
indexer actually produces). -/
def storeSelfRef : Store :=
  { projects := [(1, "proj".toList)],
    symbols := [⟨1, 1, "a.py".toList, "f".toList, 1, 2⟩],
    references := [⟨1, 1, "usage".toList, "a.py".toList, 2⟩],
    next_id := 2 }

/-- Sum of the token estimates of selected reference snippets. -/
def sumTokens (rs : List SelectedRef) : ℕ :=
  (rs.map (fun r => r.token_count)).sum

/-- `Except.isOk` as used in the statements below. -/
def exceptOk {ε α : Type} : Except ε α → Bool
  | .ok _ => true
  | .error _ => false

/-- An environment whose filesystem holds the one file of `storeSelfRef`. -/
def envSelfRef : ExtEnv :=
  { files := [("./repositories/proj/a.py".toList,
               "def f():\n    return 1\n".toList)],
    query_results := fun _ _ _ => [],
    parsers_loaded := [], extract_python := fun _ => [],
    extract_javascript := fun _ => [], similar_errors := fun _ _ _ => [] }

/-- A definition object with three estimated tokens. -/
def defFixture : DefObj := ⟨"def f(): return 1".toList, 3⟩

/-- A draft produced by an extractor (before path/language stamping). -/
def draftFoo : Draft :=
  ⟨"foo".toList, "function".toList, 1, 1, "function foo()".toList, [], []⟩

/-- Store for the resolver counterexample: the only persisted symbol of file
`a.py` spans lines 10-12, so a query for lines 1-2 misses the database. -/
def storeC8 : Store :=
  { projects := [(1, "proj".toList)],
    symbols := [⟨2, 1, "a.py".toList, "g".toList, 10, 12⟩],
    references := [], next_id := 3 }

/-- Environment for the resolver counterexample: the live file parses to a
draft spanning lines 1-2, and the vector index returns symbol 2 as the
semantic top-1. -/
def envC8 : ExtEnv :=
  { files := [("./repositories/proj/a.py".toList, "def f():\n    pass\n".toList)],
    query_results := fun _ _ _ => [⟨some 2, 0⟩],
    parsers_loaded := ["python".toList],
    extract_python := fun _ =>
      [⟨"f".toList, "function".toList, 1, 2, "def f():\n    pass".toList, [], []⟩],
    extract_javascript := fun _ => [], similar_errors := fun _ _ _ => [] }

/-- Environment for the indexer language-dispatch bug: both grammars are
loaded; the JavaScript extractor recognises the declaration, the Python
grammar finds nothing in JavaScript source. -/
def envC5 : ExtEnv :=
  { files := [],
    query_results := fun _ _ _ => [],
    parsers_loaded := ["python".toList, "javascript".toList,
      "typescript".toList, "java".toList, "cpp".toList, "go".toList,
      "rust".toList],
    extract_python := fun _ => [],
    extract_javascript := fun _ => [draftFoo],
    similar_errors := fun _ _ _ => [] }

/-- The draft payload of the upsert theorems. -/
def dataF : SymbolData := ⟨1, "a.py".toList, "f".toList, 1, 2⟩

/-- The uniqueness-key predicate of `get_by_unique`, applied to a payload
`d`: the row agrees with `d` on (project_id, file_path, symbol_name,
start_line). -/
def matchKey (d : SymbolData) (r : SymbolRow) : Bool :=
  r.project_id == d.project_id && r.file_path == d.file_path
    && r.symbol_name == d.symbol_name && r.start_line == d.start_line

/-! ## Theorems -/

/-! ### C1 — composite score shape (ranking engine) -/

/-- C1 counterexample.  For the candidate `{'file_path': "tests/foo.py"}`
(a genuine run: neutral semantic 1/2, default-distance proximity 1/3,
neutral recency 1/2, usage `log(1)/10 = 0`, test factor 1.2) the source's
composite under the default weights is `661/1500 ≈ 0.4407`, while the
claimed formula `(Σ weight_i · factor_i) × test_multiplier` over the four
non-test factors gives `1/2`: the test boost enters the source's score as
an additive fifth weighted term, not as a multiplier. -/
theorem C1_test_boost_not_multiplicative_counterexample :
    calculate_score numEnv0 none default_weights testCand ≠
      spec_composite numEnv0 none (6/10) (2/10) (1/10) (8/100) testCand := by
  simp only [calculate_score, default_weights, factor_score, spec_composite,
    semantic_similarity_score, proximity_score, recency_score, usage_score,
    test_boost_score, testCand, numEnv0, List.foldl]
  split_ifs with hc
  · norm_num
  · exact absurd (by decide) hc

/-- C1 amended: under the default weight map the composite score is the
weighted **sum of all five factors** — semantic similarity 0.60, proximity
0.20, recency 0.10, usage 0.08 and the test factor 0.02 — where the test
factor is 1.2 for a path containing a test indicator ("test"/"spec"/
"testing", case-insensitive) and 1.0 otherwise; the test boost is additive
(a fifth weighted term), not multiplicative. -/
theorem C1_composite_is_weighted_sum_of_five_factors (env : NumEnv)
    (errEmb : Option (List ℚ)) (c : RankCandidate) :
    calculate_score env errEmb default_weights c =
      6/10 * semantic_similarity_score env errEmb c
        + 2/10 * proximity_score c
        + 1/10 * recency_score env c
        + 8/100 * usage_score env c
        + 2/100 * test_boost_score c
    ∧ test_boost_score c = (if is_test_path c.file_path then 12/10 else 1) := by
  constructor
  · simp only [calculate_score, default_weights, factor_score, List.foldl]
    ring
  · rfl

/-! ### C10 — params replace the default weights wholesale -/

/-- Helper: the weighted-sum fold only reads the factor scores at the keys
present in the weight list. -/
theorem foldl_score_congr (f₁ f₂ : RankFactor → ℚ) :
    ∀ (ws : List (RankFactor × ℚ)) (a : ℚ),
      (∀ g ∈ ws.map Prod.fst, f₁ g = f₂ g) →
      ws.foldl (fun acc fw => acc + f₁ fw.1 * fw.2) a
        = ws.foldl (fun acc fw => acc + f₂ fw.1 * fw.2) a := by
  intro ws
  induction ws with
  | nil => intro a _; rfl
  | cons w ws ih =>
    intro a h
    simp only [List.foldl]
    rw [h w.1 (by simp), ih _ (fun g hg => h g (by simp [hg]))]

/-- C10: with a non-empty `params` map, `rank_references` scores with
exactly `params` (wholesale replacement, no merge with the defaults); a
factor whose key is omitted from `params` cannot influence any candidate's
composite score; and the defaults are used when `params` is empty. -/
theorem C10_params_replace_defaults (env : NumEnv) (errEmb : Option (List ℚ))
    (params : List (RankFactor × ℚ)) (cands : List RankCandidate)
    (c₁ c₂ : RankCandidate) :
    (params ≠ [] →
      rank_references env errEmb params cands =
        (if cands.isEmpty then []
         else sortDesc Prod.snd
           (cands.map (fun c => (c, calculate_score env errEmb params c)))))
    ∧ (rank_references env errEmb [] cands =
        (if cands.isEmpty then []
         else sortDesc Prod.snd
           (cands.map (fun c => (c, calculate_score env errEmb default_weights c)))))
    ∧ ((∀ g ∈ params.map Prod.fst,
          factor_score env errEmb c₁ g = factor_score env errEmb c₂ g) →
        calculate_score env errEmb params c₁
          = calculate_score env errEmb params c₂) := by
  refine ⟨fun hp => ?_, ?_, fun h => ?_⟩
  · cases params with
    | nil => exact absurd rfl hp
    | cons w ws => rfl
  · rfl
  · exact foldl_score_congr _ _ params 0 h

/-- C10 witness: at `params = [(proximity, 1)]` the wholesale-replacement
equation holds, and the candidates `testCand` and `usageCand` — which
differ in their usage factor, a factor omitted from `params` — receive the
same composite score. -/
theorem C10_params_replace_defaults_witness :
    (rank_references numEnv0 none [(RankFactor.proximity, 1)] [testCand] =
      (if ([testCand] : List RankCandidate).isEmpty then []
       else sortDesc Prod.snd
         ([testCand].map (fun c =>
           (c, calculate_score numEnv0 none [(RankFactor.proximity, 1)] c)))))
    ∧ calculate_score numEnv0 none [(RankFactor.proximity, 1)] testCand
        = calculate_score numEnv0 none [(RankFactor.proximity, 1)] usageCand := by
  have h := C10_params_replace_defaults numEnv0 none
    [(RankFactor.proximity, 1)] [testCand] testCand usageCand
  refine ⟨h.1 (by simp), h.2.2 ?_⟩
  intro g hg
  have hgp : g = RankFactor.proximity := by simpa using hg
  subst hgp
  rfl

/-! ### C2 — the max_references bound -/

/-- C2 counterexample.  In `storeTwoRefs` symbol 1 has two direct
references; `get_symbol_references(1, max_depth=0, max_references=1)`
returns **2** entries: the count guard sits at the entry of `traverse`, and
the `for ref in direct_refs` loop appends every direct reference of the
visited symbol without re-checking the bound. -/
theorem C2_max_references_bound_counterexample :
    ¬ (get_symbol_references storeTwoRefs 1 0 1).length ≤ 1 := by decide

/-- Helper: with every out-degree ≤ 1, one visit appends at most one entry
before the guard is consulted again, so the accumulated list never passes
`maxR`. -/
theorem traverse_symbol_length_le (st : Store) (maxD maxR : ℕ)
    (h : ∀ i, (reference_get_by_symbol st i).length ≤ 1) :
    ∀ fuel cur depth s, s.refs.length ≤ maxR →
      (traverse_symbol st maxD maxR fuel cur depth s).refs.length ≤ maxR := by
  intro fuel
  induction fuel with
  | zero => intro cur depth s hs; simpa [traverse_symbol] using hs
  | succ fuel ih =>
    intro cur depth s hs
    simp only [traverse_symbol]
    split
    · exact hs
    · split
      · exact hs
      · rename_i hguard _
        have hlen : s.refs.length < maxR := by
          rcases Nat.lt_or_ge s.refs.length maxR with hlt | hge
          · exact hlt
          · exact absurd (Or.inr hge) hguard
        have h1 := h cur
        rcases hrs : reference_get_by_symbol st cur with _ | ⟨r, rest⟩
        · simpa [traverse_refs] using hs
        · have hrest : rest = [] := by
            rw [hrs] at h1
            simpa using h1
          subst hrest
          simp only [traverse_refs]
          split
          · exact ih _ _ _ (by simp; omega)
          · simp only [traverse_refs]
            simp
            omega

/-- C2 amended: the `max_references` check happens only on entry to a
symbol's expansion; all direct references of the symbol being expanded are
appended without re-checking, so the result can exceed `n` (see the
counterexample: 2 entries for `n = 1`).  Traversal does stop expanding
further symbols once the count has reached `n`; in particular, whenever
every symbol has at most one direct reference the result has at most `n`
entries, for every `n ≥ 0`. -/
theorem C2_at_most_n_entries_for_unit_out_degree (st : Store) (s d n : ℕ)
    (h : ∀ i, (reference_get_by_symbol st i).length ≤ 1) :
    (get_symbol_references st s d n).length ≤ n := by
  unfold get_symbol_references
  cases symbol_get st s with
  | none => simp
  | some _ =>
    exact traverse_symbol_length_le st d n h (d + 1) s 0 ⟨[], []⟩ (by simp)

/-- C2 witness: `storeSelfRef` has out-degree ≤ 1 everywhere, and the
traversal from symbol 1 with `max_references = 1` indeed returns at most
one entry. -/
theorem C2_at_most_n_entries_for_unit_out_degree_witness :
    (∀ i, (reference_get_by_symbol storeSelfRef i).length ≤ 1)
    ∧ (get_symbol_references storeSelfRef 1 2 1).length ≤ 1 := by
  have h : ∀ i, (reference_get_by_symbol storeSelfRef i).length ≤ 1 := by
    intro i
    exact (List.length_filter_le _ _).trans (by decide)
  exact ⟨h, C2_at_most_n_entries_for_unit_out_degree storeSelfRef 1 2 1 h⟩

/-! ### C6 — the max_depth bound -/

/-- Helper: the loop body preserves the depth bound on accumulated entries
as long as the recursion does and the current depth is within the bound. -/
theorem traverse_refs_depth_le (recurse : ℕ → ℕ → TravState → TravState)
    (maxD : ℕ) (st : Store)
    (hrec : ∀ cur depth s, (∀ e ∈ s.refs, e.depth ≤ maxD) →
      ∀ e ∈ (recurse cur depth s).refs, e.depth ≤ maxD) :
    ∀ rs depth s, depth ≤ maxD → (∀ e ∈ s.refs, e.depth ≤ maxD) →
      ∀ e ∈ (traverse_refs recurse maxD st rs depth s).refs, e.depth ≤ maxD := by
  intro rs
  induction rs with
  | nil => intro depth s _ hs; simpa [traverse_refs] using hs
  | cons r rest ih =>
    intro depth s hdepth hs
    simp only [traverse_refs]
    split
    · refine ih depth _ hdepth (hrec _ _ _ ?_)
      intro e he
      rcases List.mem_append.mp he with h1 | h1
      · exact hs e h1
      · simpa using (by simpa using h1 : e = ⟨r, depth, _⟩) ▸ hdepth
    · refine ih depth _ hdepth ?_
      intro e he
      rcases List.mem_append.mp he with h1 | h1
      · exact hs e h1
      · simpa using (by simpa using h1 : e = ⟨r, depth, _⟩) ▸ hdepth

/-- Helper: `traverse` never records an entry deeper than `max_depth`. -/
theorem traverse_symbol_depth_le (st : Store) (maxD maxR : ℕ) :
    ∀ fuel cur depth s, (∀ e ∈ s.refs, e.depth ≤ maxD) →
      ∀ e ∈ (traverse_symbol st maxD maxR fuel cur depth s).refs,
        e.depth ≤ maxD := by
  intro fuel
  induction fuel with
  | zero => intro cur depth s hs; simpa [traverse_symbol] using hs
  | succ fuel ih =>
    intro cur depth s hs
    simp only [traverse_symbol]
    split
    · exact hs
    · split
      · exact hs
      · rename_i hguard _
        have hdepth : depth ≤ maxD := by
          rcases Nat.lt_or_ge maxD depth with hlt | hge
          · exact absurd (Or.inl hlt) hguard
          · exact hge
        exact traverse_refs_depth_le _ maxD st (fun c dp s2 => ih c dp s2)
          _ depth _ hdepth hs

/-- C6: no entry returned by
`get_symbol_references(s, max_depth=d, max_references=n)` has `depth > d`,
for every `d ≥ 0`; and with `d = 0` every returned entry is a direct
(depth-0) reference. -/
theorem C6_depth_never_exceeds_max_depth (st : Store) (s d n : ℕ) :
    (∀ e ∈ get_symbol_references st s d n, e.depth ≤ d)
    ∧ (d = 0 → ∀ e ∈ get_symbol_references st s d n, e.depth = 0) := by
  have h1 : ∀ e ∈ get_symbol_references st s d n, e.depth ≤ d := by
    unfold get_symbol_references
    cases symbol_get st s with
    | none => simp
    | some _ =>
      exact traverse_symbol_depth_le st d n (d + 1) s 0 ⟨[], []⟩ (by simp)
  refine ⟨h1, fun hd e he => Nat.le_zero.mp (hd ▸ h1 e he)⟩

/-- C6 witness: with `max_depth = 0` on `storeTwoRefs`, every returned
entry has depth 0. -/
theorem C6_depth_never_exceeds_max_depth_witness :
    ∀ e ∈ get_symbol_references storeTwoRefs 1 0 5, e.depth = 0 :=
  (C6_depth_never_exceeds_max_depth storeTwoRefs 1 0 5).2 rfl

/-! ### C7 — token-budget respect in pack selection -/

/-- Helper: every admission keeps the running total within the budget, so a
total that starts within the budget ends within it. -/
theorem select_refs_total_le (st : Store) (env : ExtEnv) (budget : ℕ) :
    ∀ (l : List RefEntry) (s s' : SelState), s.total ≤ budget →
      select_refs st env budget l s = .ok s' → s'.total ≤ budget := by
  intro l
  induction l with
  | nil =>
    intro s s' hs hok
    simp only [select_refs] at hok
    cases hok
    exact hs
  | cons e rest ih =>
    intro s s' hs hok
    cases hsym : e.symbol with
    | none =>
      simp only [select_refs, hsym] at hok
      exact Except.noConfusion hok
    | some srow =>
      simp only [select_refs, hsym] at hok
      by_cases hc : s.total
          + countWords (get_reference_content st env srow e.ref) ≤ budget
      · rw [if_pos hc] at hok
        exact ih _ _ hc hok
      · rw [if_neg hc] at hok
        exact ih _ _ hs hok

/-- Helper: the running total is always the base (the definition's tokens)
plus the tokens of the snippets admitted so far. -/
theorem select_refs_total_eq (st : Store) (env : ExtEnv) (budget base : ℕ) :
    ∀ (l : List RefEntry) (s s' : SelState),
      s.total = base + sumTokens s.refs →
      select_refs st env budget l s = .ok s' →
      s'.total = base + sumTokens s'.refs := by
  intro l
  induction l with
  | nil =>
    intro s s' hs hok
    simp only [select_refs] at hok
    cases hok
    exact hs
  | cons e rest ih =>
    intro s s' hs hok
    cases hsym : e.symbol with
    | none =>
      simp only [select_refs, hsym] at hok
      exact Except.noConfusion hok
    | some srow =>
      simp only [select_refs, hsym] at hok
      by_cases hc : s.total
          + countWords (get_reference_content st env srow e.ref) ≤ budget
      · rw [if_pos hc] at hok
        refine ih _ _ ?_ hok
        simp only [sumTokens, List.map_append, List.sum_append,
          List.map_cons, List.map_nil, List.sum_cons, List.sum_nil] at hs ⊢
        omega
      · rw [if_neg hc] at hok
        exact ih _ _ hs hok

/-- C7: whenever the definition's token estimate is strictly below the
budget and the greedy scan completes, (i) an overflowing candidate is
skipped without ending the scan (the loop recurses on the remaining
candidates with an unchanged state), and (ii) the token estimates of the
selected references sum to at most `token_budget − definition.token_count`
(the running total being the definition's tokens plus the selected
tokens). -/
theorem C7_selected_tokens_within_budget (st : Store) (env : ExtEnv)
    (definition : DefObj) (references : List RefEntry) (budget : ℕ)
    (sel : SelState)
    (hdef : definition.token_count < budget)
    (hok : rank_and_select_snippets st env definition references budget
      = .ok sel) :
    sumTokens sel.refs ≤ budget - definition.token_count
    ∧ sel.total = definition.token_count + sumTokens sel.refs
    ∧ (∀ (e : RefEntry) (rest : List RefEntry) (s : SelState) (srow : SymbolRow),
        e.symbol = some srow →
        ¬ (s.total + countWords (get_reference_content st env srow e.ref)
            ≤ budget) →
        select_refs st env budget (e :: rest) s
          = select_refs st env budget rest s) := by
  have htot : sel.total ≤ budget :=
    select_refs_total_le st env budget references _ sel
      (le_of_lt hdef) hok
  have heq : sel.total = definition.token_count + sumTokens sel.refs :=
    select_refs_total_eq st env budget definition.token_count references _ sel
      (by simp [sumTokens]) hok
  refine ⟨by omega, heq, ?_⟩
  intro e rest s srow hsym hover
  simp only [select_refs, hsym]
  rw [if_neg hover]

/-- C7 witness: on `storeSelfRef`/`envSelfRef`, a 3-token definition under a
budget of 10 admits the single 4-token reference snippet, and
`4 ≤ 10 − 3`. -/
theorem C7_selected_tokens_within_budget_witness :
    defFixture.token_count < 10
    ∧ sumTokens ([⟨"def f():\n    return 1\n".toList, "usage".toList, 4⟩]
        : List SelectedRef) ≤ 10 - defFixture.token_count := by
  refine ⟨by decide, ?_⟩
  exact (C7_selected_tokens_within_budget storeSelfRef envSelfRef defFixture
    (get_symbol_references storeSelfRef 1 2 50) 10
    ⟨[⟨"def f():\n    return 1\n".toList, "usage".toList, 4⟩], 7⟩
    (by decide) rfl).1

/-! ### C3 — absence handling on the read paths -/

/-- C3 counterexample: `build_reference_pack` on an absent symbol does not
return an empty/null result — the `ValueError` is logged and **re-raised**
(an error outcome, here `Except.error`). -/
theorem C3_build_reference_pack_raises_counterexample :
    exceptOk (build_reference_pack emptyStore emptyEnv 1 4000 none) = false := by
  rfl

/-- C3 amended: `get_symbol_references` returns `[]` and
`resolve_snippet_to_symbol` returns `None` when the referenced project,
symbol, or file is absent — those two read paths never raise — but
`build_reference_pack` **raises** (re-raises the `ValueError`) when the
anchor symbol is absent. -/
theorem C3_absence_empty_except_build_pack (st : Store) (env : ExtEnv)
    (i d n b : ℕ) (pr : Option (List (RankFactor × ℚ)))
    (hsym : symbol_get st i = none) :
    get_symbol_references st i d n = []
    ∧ exceptOk (build_reference_pack st env i b pr) = false
    ∧ (∀ (p : ℕ) (f sn : List Char) (lr : Option (ℕ × ℕ)),
        st.symbols = [] → st.projects = [] →
        (∀ ns q k, env.query_results ns q k = []) →
        resolve_snippet_to_symbol st env p f sn lr = none) := by
  refine ⟨?_, ?_, ?_⟩
  · simp [get_symbol_references, hsym]
  · simp [build_reference_pack, hsym, exceptOk]
  · intro p f sn lr hsyms hprojs hq
    have hsem : ∀ q k, semantic_find_symbols st env p q (some f) k = [] := by
      intro q k
      simp [semantic_find_symbols, hq, sortDesc]
    have henc : ∀ sl el,
        find_enclosing_symbol st env p f (some sl) (some el) none = none := by
      intro sl el
      simp [find_enclosing_symbol, get_by_file_and_line, hsyms, repo_path,
        project_get, hprojs]
    cases lr with
    | none => simp [resolve_snippet_to_symbol, hsem]
    | some se =>
      obtain ⟨sl, el⟩ := se
      simp [resolve_snippet_to_symbol, henc, hsem]

/-- C3 witness: on the empty store, the three read operations behave as the
amended claim states. -/
theorem C3_absence_empty_except_build_pack_witness :
    get_symbol_references emptyStore 1 2 50 = []
    ∧ exceptOk (build_reference_pack emptyStore emptyEnv 1 4000 none) = false
    ∧ resolve_snippet_to_symbol emptyStore emptyEnv 1 ("a.py".toList)
        ("x".toList) (some (1, 2)) = none := by
  have h := C3_absence_empty_except_build_pack emptyStore emptyEnv 1 2 50 4000
    none rfl
  exact ⟨h.1, h.2.1,
    h.2.2 1 ("a.py".toList) ("x".toList) (some (1, 2)) rfl rfl
      (fun _ _ _ => rfl)⟩

/-! ### C8 — resolution precedence -/

/-- C8 counterexample.  On `storeC8`/`envC8`: the supplied line range 1–2
resolves to an enclosing symbol (the freshly parsed draft `f`, absent from
the store), the snippet's semantic top-1 is a different symbol (id 2), yet
the resolver returns `None` — not the line-range match: reading `['id']`
off the draft raises `KeyError`, which the `except` swallows without even
consulting the fallback. -/
theorem C8_draft_match_returns_none_counterexample :
    (∃ d, find_enclosing_symbol storeC8 envC8 1 ("a.py".toList) (some 1)
        (some 2) none = some (.draft d))
    ∧ (semantic_find_symbols storeC8 envC8 1 ("x".toList)
        (some ("a.py".toList)) 1).head?.map (fun h => h.symbol.id) = some 2
    ∧ resolve_snippet_to_symbol storeC8 envC8 1 ("a.py".toList) ("x".toList)
        (some (1, 2)) = none := by
  refine ⟨⟨⟨"f".toList, "function".toList, 1, 2,
    "def f():\n    pass".toList, "a.py".toList, "python".toList⟩, ?_⟩, rfl, rfl⟩
  rfl

/-- C8 amended: when line-range resolution yields a **persisted** symbol,
the resolver returns its id and the semantic fallback is not consulted;
when line-range resolution yields only a freshly-parsed draft, the resolver
returns `None` (the `['id']` lookup fails and is swallowed) and the
fallback is still not consulted; the semantic top-1 fallback is used
exactly when line-range resolution yields no symbol at all. -/
theorem C8_line_range_precedence (st : Store) (env : ExtEnv) (p : ℕ)
    (f sn : List Char) (sl el : ℕ) :
    (∀ r, find_enclosing_symbol st env p f (some sl) (some el) none
        = some (.row r) →
      resolve_snippet_to_symbol st env p f sn (some (sl, el)) = some r.id)
    ∧ (∀ d, find_enclosing_symbol st env p f (some sl) (some el) none
        = some (.draft d) →
      resolve_snippet_to_symbol st env p f sn (some (sl, el)) = none)
    ∧ (find_enclosing_symbol st env p f (some sl) (some el) none = none →
      resolve_snippet_to_symbol st env p f sn (some (sl, el))
        = (match semantic_find_symbols st env p sn (some f) 1 with
           | h :: _ => some h.symbol.id
           | [] => none)) := by
  refine ⟨fun r hr => ?_, fun d hd => ?_, fun hn => ?_⟩
  · simp [resolve_snippet_to_symbol, hr]
  · simp [resolve_snippet_to_symbol, hd]
  · simp [resolve_snippet_to_symbol, hn]

/-- C8 witness: a database hit at lines 1–2 of `storeTwoRefs` resolves to
symbol 1; the draft-only situation of `storeC8` resolves to `None`. -/
theorem C8_line_range_precedence_witness :
    resolve_snippet_to_symbol storeTwoRefs emptyEnv 1 ("a.py".toList)
        ("x".toList) (some (1, 2)) = some 1
    ∧ resolve_snippet_to_symbol storeC8 envC8 1 ("a.py".toList) ("x".toList)
        (some (1, 2)) = none := by
  constructor
  · exact (C8_line_range_precedence storeTwoRefs emptyEnv 1 ("a.py".toList)
      ("x".toList) 1 2).1 ⟨1, 1, "a.py".toList, "f".toList, 1, 2⟩ rfl
  · exact (C8_line_range_precedence storeC8 envC8 1 ("a.py".toList)
      ("x".toList) 1 2).2.1 ⟨"f".toList, "function".toList, 1, 2,
      "def f():\n    pass".toList, "a.py".toList, "python".toList⟩ rfl

/-! ### C4 — indexing-job state machine -/

/-- C4 counterexample: on a normal run the job's status history is
`processing → processing → completed`; the job is **created** already in
`processing` — the `pending` state of the claimed state machine never
occurs. -/
theorem C4_job_never_pending_counterexample :
    (index_job_status_trace true 1 none).head? = some JobStatus.processing
    ∧ JobStatus.pending ∉ index_job_status_trace true 1 none := by
  decide

/-- Helper: the batch loop emits `processing` progress updates and ends with
exactly one terminal status. -/
theorem run_batches_shape (fault : Option ℕ) :
    ∀ (n idx : ℕ), ∃ mids last,
      run_batches fault idx n = mids ++ [last]
      ∧ (∀ x ∈ mids, x = JobStatus.processing)
      ∧ (last = JobStatus.completed ∨ last = JobStatus.failed) := by
  intro n
  induction n with
  | zero =>
    intro idx
    exact ⟨[], JobStatus.completed, rfl, by simp, Or.inl rfl⟩
  | succ rem ih =>
    intro idx
    by_cases hf : (fault == some idx) = true
    · exact ⟨[], JobStatus.failed, by simp [run_batches, hf], by simp,
        Or.inr rfl⟩
    · obtain ⟨mids, last, heq, hmids, hlast⟩ := ih (idx + 1)
      refine ⟨JobStatus.processing :: mids, last, ?_, ?_, hlast⟩
      · simp [run_batches, hf, heq]
      · intro x hx
        rcases List.mem_cons.mp hx with h | h
        · exact h
        · exact hmids x h
/-- C4 amended: the job is created directly in the **Processing** state
(`_create_indexing_job(project_id, "processing")`), every intermediate
status write is Processing, and the run ends with exactly one terminal
write — Completed on normal completion or Failed on a job-level fault
(missing project or a batch-level exception) — after which no further
status is written. -/
theorem C4_job_states_processing_then_terminal (projectExists : Bool)
    (numBatches : ℕ) (fault : Option ℕ) :
    ∃ mids last,
      index_job_status_trace projectExists numBatches fault
        = JobStatus.processing :: (mids ++ [last])
      ∧ (∀ x ∈ mids, x = JobStatus.processing)
      ∧ (last = JobStatus.completed ∨ last = JobStatus.failed) := by
  cases projectExists with
  | false =>
    exact ⟨[], JobStatus.failed, rfl, by simp, Or.inr rfl⟩
  | true =>
    obtain ⟨mids, last, heq, hmids, hlast⟩ :=
      run_batches_shape fault numBatches 0
    exact ⟨mids, last, by simp [index_job_status_trace, heq], hmids, hlast⟩

/-! ### C5 — per-language extractor dispatch in the indexing pipeline -/

/-- C5: the code evaluated at the failing input.  For `app.js` the indexer
detects `javascript`, yet extracts **no** symbols because
`_process_single_file` calls `ast_parser.parse_python_symbols` — the Python
entry point — for every recognised language, while the JavaScript extractor
(which proper dispatch would select, as `ReferenceService._parse_symbols`
does) yields the `foo` draft; an unrecognised extension does yield an empty
list without error, and the last conjunct exhibits the unconditional
`'python'` dispatch. -/
theorem C5_indexer_always_uses_python_extractor :
    detect_language_indexer ("app.js".toList) = "javascript".toList
    ∧ indexer_extract_symbols envC5 ("app.js".toList)
        ("function foo()".toList) = []
    ∧ ast_parse_symbols envC5 ("javascript".toList) ("function foo()".toList)
        ("app.js".toList)
      = [⟨"foo".toList, "function".toList, 1, 1, "function foo()".toList,
          "app.js".toList, "javascript".toList⟩]
    ∧ indexer_extract_symbols envC5 ("file.xyz".toList)
        ("function foo()".toList) = []
    ∧ ∀ (env : ExtEnv) (fp content : List Char),
        indexer_extract_symbols env fp content
          = (if detect_language_indexer fp == "unknown".toList then []
             else ast_parse_symbols env ("python".toList) content fp) := by
  refine ⟨by decide, by decide, by decide, by decide, fun env fp content => rfl⟩

/-! ### C9 — upsert identity and idempotence -/

/-- Helper: `get_by_unique` applied at a payload's key columns is the first
`matchKey` row. -/
theorem get_by_unique_eq_filter (st : Store) (d : SymbolData) :
    get_by_unique st d.project_id d.file_path d.symbol_name d.start_line
      = (st.symbols.filter (matchKey d)).head? := rfl

/-- Helper: a row produced from payload `d` matches `d`'s key. -/
theorem matchKey_applyData (d : SymbolData) (i : ℕ) :
    matchKey d (applyData i d) = true := by
  simp [matchKey, applyData]

/-- Helper: the head of a filtered list is a member satisfying the
predicate. -/
theorem head_filter_mem {p : SymbolRow → Bool} :
    ∀ {l : List SymbolRow} {x : SymbolRow},
      (l.filter p).head? = some x → x ∈ l ∧ p x = true := by
  intro l
  induction l with
  | nil => intro x h; simp at h
  | cons r rest ih =>
    intro x h
    by_cases hr : p r = true
    · rw [List.filter_cons_of_pos hr] at h
      cases h
      exact ⟨List.mem_cons_self r rest, hr⟩
    · rw [List.filter_cons_of_neg hr] at h
      obtain ⟨hmem, hx⟩ := ih h
      exact ⟨List.mem_cons_of_mem r hmem, hx⟩

/-- Helper: updating the row(s) with id `i` to payload `d` and selecting by
id `i` yields the updated row, whenever some row has id `i`. -/
theorem filter_id_after_map (i : ℕ) (d : SymbolData) :
    ∀ (l : List SymbolRow), (∃ r ∈ l, r.id = i) →
      ((l.map (fun r => if r.id == i then applyData i d else r)).filter
        (fun r => r.id == i)).head? = some (applyData i d) := by
  intro l
  induction l with
  | nil => rintro ⟨r, hr, _⟩; simp at hr
  | cons r rest ih =>
    rintro ⟨w, hw, hwid⟩
    by_cases hr : (r.id == i) = true
    · rw [List.map_cons, if_pos hr,
        List.filter_cons_of_pos (by simp [applyData])]
      rfl
    · rw [List.map_cons, if_neg hr,
        List.filter_cons_of_neg (p := fun r : SymbolRow => r.id == i) hr]
      refine ih ⟨w, ?_, hwid⟩
      rcases List.mem_cons.mp hw with h | h
      · have hri : r.id = i := by rw [← h]; exact hwid
        exact absurd (by simp [hri]) hr
      · exact h

/-- Helper: after updating the first key-matching row in place, the first
key-matching row still carries the same id. -/
theorem filter_head_after_update (d : SymbolData) :
    ∀ (l : List SymbolRow) (ex : SymbolRow),
      (l.filter (matchKey d)).head? = some ex →
      ∃ ex2, ((l.map (fun r => if r.id == ex.id then applyData ex.id d
          else r)).filter (matchKey d)).head? = some ex2 ∧ ex2.id = ex.id := by
  intro l
  induction l with
  | nil => intro ex h; simp at h
  | cons r rest ih =>
    intro ex h
    by_cases hr : matchKey d r = true
    · rw [List.filter_cons_of_pos hr] at h
      have hex : r = ex := by cases h; rfl
      subst hex
      refine ⟨applyData r.id d, ?_, rfl⟩
      rw [List.map_cons, if_pos (beq_self_eq_true r.id),
        List.filter_cons_of_pos (matchKey_applyData d r.id)]
      rfl
    · rw [List.filter_cons_of_neg hr] at h
      by_cases hid : (r.id == ex.id) = true
      · refine ⟨applyData ex.id d, ?_, rfl⟩
        rw [List.map_cons, if_pos hid,
          List.filter_cons_of_pos (matchKey_applyData d ex.id)]
        rfl
      · obtain ⟨ex2, hhead, hex2⟩ := ih ex h
        refine ⟨ex2, ?_, hex2⟩
        rw [List.map_cons, if_neg hid, List.filter_cons_of_neg hr]
        exact hhead

/-- Helper: when the uniqueness key matches, the upsert takes the update
branch: it returns the matched row's id and the new table is a row-for-row
update (in particular the row count is unchanged). -/
theorem upsert_match_updates (st : Store) (d : SymbolData) (ex : SymbolRow)
    (hex : get_by_unique st d.project_id d.file_path d.symbol_name
      d.start_line = some ex) :
    (upsert_symbol st d).2 = some ex.id
    ∧ (upsert_symbol st d).1.symbols
        = st.symbols.map (fun r => if r.id == ex.id then applyData ex.id d
            else r) := by
  have hmem := head_filter_mem (p := matchKey d)
    (by rw [← get_by_unique_eq_filter]; exact hex)
  have hupd := filter_id_after_map ex.id d st.symbols ⟨ex, hmem.1, rfl⟩
  constructor
  · simp only [upsert_symbol, hex, symbol_update]
    rw [hupd]
    rfl
  · simp only [upsert_symbol, hex, symbol_update]

/-- Helper: when the uniqueness key matches nothing, the upsert takes the
insert branch: it returns the fresh id and appends exactly one row. -/
theorem upsert_nomatch_inserts (st : Store) (d : SymbolData)
    (hnone : get_by_unique st d.project_id d.file_path d.symbol_name
      d.start_line = none) :
    (upsert_symbol st d).2 = some st.next_id
    ∧ (upsert_symbol st d).1.symbols
        = st.symbols ++ [applyData st.next_id d] := by
  constructor
  · simp only [upsert_symbol, hnone, symbol_create]
    rfl
  · simp only [upsert_symbol, hnone, symbol_create]

/-- C9: `_upsert_symbol` updates the matching row in place preserving its id
when the uniqueness key `(project_id, file_path, name, start_line)` matches
an existing row (no row is added), inserts a fresh row only when no match
exists, and is idempotent on unchanged input: a second upsert of the same
payload returns the same id and leaves the row count unchanged — so
re-indexing an unchanged file twice yields the same symbol ids and no
duplicate rows. -/
theorem C9_upsert_idempotent_preserves_ids (st : Store) (d : SymbolData) :
    (∀ ex, get_by_unique st d.project_id d.file_path d.symbol_name
        d.start_line = some ex →
      (upsert_symbol st d).2 = some ex.id
      ∧ (upsert_symbol st d).1.symbols.length = st.symbols.length)
    ∧ (get_by_unique st d.project_id d.file_path d.symbol_name d.start_line
        = none →
      (upsert_symbol st d).2 = some st.next_id
      ∧ (upsert_symbol st d).1.symbols.length = st.symbols.length + 1)
    ∧ ((upsert_symbol (upsert_symbol st d).1 d).2 = (upsert_symbol st d).2
      ∧ (upsert_symbol (upsert_symbol st d).1 d).1.symbols.length
          = (upsert_symbol st d).1.symbols.length) := by
  refine ⟨?_, ?_, ?_⟩
  · intro ex hex
    obtain ⟨h1, h2⟩ := upsert_match_updates st d ex hex
    exact ⟨h1, by rw [h2, List.length_map]⟩
  · intro hnone
    obtain ⟨h1, h2⟩ := upsert_nomatch_inserts st d hnone
    exact ⟨h1, by rw [h2, List.length_append, List.length_singleton]⟩
  · cases hex : get_by_unique st d.project_id d.file_path d.symbol_name
      d.start_line with
    | none =>
      obtain ⟨h1, h2⟩ := upsert_nomatch_inserts st d hex
      have hfil : st.symbols.filter (matchKey d) = [] := by
        have h3 := get_by_unique_eq_filter st d
        rw [hex] at h3
        exact List.head?_eq_none_iff.mp h3.symm
      have hsnd : get_by_unique (upsert_symbol st d).1 d.project_id
          d.file_path d.symbol_name d.start_line
          = some (applyData st.next_id d) := by
        rw [get_by_unique_eq_filter, h2, List.filter_append, hfil,
          List.filter_cons_of_pos (matchKey_applyData d st.next_id)]
        rfl
      obtain ⟨g1, g2⟩ := upsert_match_updates (upsert_symbol st d).1 d
        (applyData st.next_id d) hsnd
      constructor
      · rw [g1, h1]
        rfl
      · rw [g2, List.length_map]
    | some ex =>
      obtain ⟨h1, h2⟩ := upsert_match_updates st d ex hex
      obtain ⟨ex2, hhead2, hex2id⟩ := filter_head_after_update d st.symbols ex
        (by rw [← get_by_unique_eq_filter]; exact hex)
      have hsnd : get_by_unique (upsert_symbol st d).1 d.project_id
          d.file_path d.symbol_name d.start_line = some ex2 := by
        rw [get_by_unique_eq_filter, h2]
        exact hhead2
      obtain ⟨g1, g2⟩ := upsert_match_updates (upsert_symbol st d).1 d ex2
        hsnd
      constructor
      · rw [g1, h1, hex2id]
      · rw [g2, List.length_map]

/-- C9 witness: upserting the same payload twice into the empty store
creates one row with id 1 and the second upsert returns the same id without
adding a row. -/
theorem C9_upsert_idempotent_preserves_ids_witness :
    (upsert_symbol emptyStore dataF).2 = some 1
    ∧ (upsert_symbol emptyStore dataF).1.symbols.length = 1
    ∧ (upsert_symbol (upsert_symbol emptyStore dataF).1 dataF).2 = some 1
    ∧ (upsert_symbol (upsert_symbol emptyStore dataF).1 dataF).1.symbols.length
        = 1 := by
  have h := C9_upsert_idempotent_preserves_ids emptyStore dataF
  have hb := h.2.1 rfl
  have hc := h.2.2
  refine ⟨hb.1, hb.2, ?_, ?_⟩
  · rw [hc.1, hb.1]
    rfl
  · rw [hc.2, hb.2]
    rfl
